import Mathlib

/-!
Verification of the allocation core of the `bpm` repository
(`src/lib/assignment-utils.ts`): captain assignment, participant
assignment with overbooking, and roster building.

The TypeScript functions are shallowly embedded as Lean functions.
JavaScript's `Math.random()`-driven Fisher-Yates shuffle is modelled by
an explicit choice function `rand : (n : Nat) → Fin (n + 1)` supplying,
for each loop index, the value `Math.floor(Math.random() * (index + 1))`
(which always lies in `[0, index]`).  `String.prototype.localeCompare`
is modelled by an abstract comparator parameter.  JavaScript's stable
`Array.prototype.sort` with a consistent comparator is modelled by
`List.insertionSort` on the comparator's induced `≤`: for a consistent
comparator every stable sort returns the same list, so the stable
insertion sort is an exact model of the engine's stable sort.
-/

namespace BPM

open scoped List

/-- Venue record (`Restaurant` in `types/database.ts`): the fields the
allocation core reads. `assigned_captain_id` is `string | null`. -/
structure Restaurant where
  id : String
  name : String
  address : String
  max_seats : Int
  assigned_captain_id : Option String
  deriving Repr, DecidableEq

/-- Participant record: the fields the allocation core reads.
`status` is one of "registered", "cancelled", "late_joiner". -/
structure Participant where
  id : String
  attendee_name : String
  attendee_email : String
  is_table_captain : Bool
  status : String
  deriving Repr, DecidableEq

/-- `{restaurantId, captainId}` plan entry of `planCaptainAssignments`. -/
structure CaptainAssignmentPlan where
  restaurantId : String
  captainId : String
  deriving Repr, DecidableEq

/-- `{participantId, restaurantId}` plan entry of `planParticipantAssignments`. -/
structure ParticipantAssignmentPlan where
  participantId : String
  restaurantId : String
  deriving Repr, DecidableEq

/-- A swap of positions `i` and `j`, the body of the Fisher-Yates loop:
`[shuffled[index], shuffled[j]] = [shuffled[j], shuffled[index]]`.
Out-of-range positions leave the list unchanged (never hit by the loop). -/
def listSwap (l : List α) (i j : Nat) : List α :=
  match l[i]?, l[j]? with
  | some x, some y => (l.set i y).set j x
  | _, _ => l

/-- The Fisher-Yates countdown loop of `randomShuffle`:
`for (index = length-1; index > 0; index -= 1) swap(index, rand in [0,index])`. -/
def fisherYatesGo (rand : (n : Nat) → Fin (n + 1)) : Nat → List α → List α
  | 0, l => l
  | i + 1, l => fisherYatesGo rand i (listSwap l (i + 1) (rand (i + 1)).val)

/-- `randomShuffle` from `assignment-utils.ts`, with the stream of
`Math.floor(Math.random() * (index + 1))` draws supplied by `rand`. -/
def randomShuffle (rand : (n : Nat) → Fin (n + 1)) (items : List α) : List α :=
  fisherYatesGo rand (items.length - 1) items

/-- The interpolated message of the `Error` thrown by `planCaptainAssignments`. -/
def captainErrorMsg (need avail : Nat) : String :=
  s!"Not enough captains. Need {need} but only have {avail}."

/-- `planCaptainAssignments` from `assignment-utils.ts`.  The thrown
`Error` is modelled as `Except.error` carrying the message.  The source
pairs `restaurants[index]` with `shuffledCaptains[index]`; under the
length guard the shuffled list is at least as long as `restaurants`, so
the positional pairing is `List.zipWith`. -/
def planCaptainAssignments (rand : (n : Nat) → Fin (n + 1))
    (restaurants : List Restaurant) (captains : List Participant) :
    Except String (List CaptainAssignmentPlan) :=
  if restaurants.length = 0 then
    Except.ok []
  else
    let eligibleCaptains := captains.filter (fun captain => captain.status != "cancelled")
    if eligibleCaptains.length < restaurants.length then
      Except.error (captainErrorMsg restaurants.length eligibleCaptains.length)
    else
      let shuffledCaptains := randomShuffle rand eligibleCaptains
      Except.ok (restaurants.zipWith
        (fun restaurant captain => { restaurantId := restaurant.id, captainId := captain.id })
        shuffledCaptains)

/-- JavaScript truthiness of an `assigned_captain_id : string | null`:
`null` and the empty string are falsy. -/
def truthyId : Option String → Bool
  | none => false
  | some s => s != ""

/-- The live per-venue counter record of `planParticipantAssignments`:
`{id, capacity: Math.max(max_seats - 1, 0), assigned}`. -/
structure Pool where
  id : String
  capacity : Nat
  assigned : Nat
  deriving Repr, DecidableEq

/-- The comparator passed to `sort` on pools (returns a JS number):
free-space pools first, then fewer assigned, then larger capacity. -/
def poolCmp (a b : Pool) : Int :=
  let aHasSpace := a.assigned < a.capacity
  let bHasSpace := b.assigned < b.capacity
  if aHasSpace ≠ bHasSpace then
    if aHasSpace then -1 else 1
  else if a.assigned ≠ b.assigned then
    (a.assigned : Int) - (b.assigned : Int)
  else
    (b.capacity : Int) - (a.capacity : Int)

/-- The per-participant target selection of `planParticipantAssignments`:
sort a copy of the pools, first look for a pool with free capacity, else
fall back to the sort's head when its capacity is positive. -/
def chooseTarget (pools : List Pool) : Option Pool :=
  let sortedPools := pools.insertionSort (fun a b => poolCmp a b ≤ 0)
  match sortedPools.find? (fun pool => 0 < pool.capacity && pool.assigned < pool.capacity) with
  | some target => some target
  | none =>
    match sortedPools with
    | target :: _ => if 0 < target.capacity then some target else none
    | [] => none

/-- `pools.find((pool) => pool.id === target.id)` followed by
`poolRef.assigned += 1`: increment the first pool carrying the id. -/
def bumpFirst (pools : List Pool) (targetId : String) : List Pool :=
  match pools with
  | [] => []
  | pool :: rest =>
    if pool.id = targetId then { pool with assigned := pool.assigned + 1 } :: rest
    else pool :: bumpFirst rest targetId

/-- The `for (const participant of shuffledParticipants)` loop of
`planParticipantAssignments`, threading the mutable pool counters. -/
def assignLoop (pools : List Pool) :
    List Participant → List ParticipantAssignmentPlan × List Participant
  | [] => ([], [])
  | participant :: rest =>
    if participant.is_table_captain then
      assignLoop pools rest
    else
      match chooseTarget pools with
      | none =>
        let result := assignLoop pools rest
        (result.1, participant :: result.2)
      | some target =>
        let result := assignLoop (bumpFirst pools target.id) rest
        ({ participantId := participant.id, restaurantId := target.id } :: result.1, result.2)

/-- `planParticipantAssignments` from `assignment-utils.ts`. -/
def planParticipantAssignments (rand : (n : Nat) → Fin (n + 1))
    (restaurants : List Restaurant) (participants : List Participant)
    (requireCaptain : Bool := true) :
    List ParticipantAssignmentPlan × List Participant :=
  let eligibleRestaurants := restaurants.filter
    (fun restaurant => if requireCaptain then truthyId restaurant.assigned_captain_id else true)
  let pools := eligibleRestaurants.map
    (fun restaurant =>
      { id := restaurant.id, capacity := (restaurant.max_seats - 1).toNat, assigned := 0 })
  if pools.length = 0 then
    ([], participants)
  else
    let shuffledParticipants :=
      randomShuffle rand (participants.filter (fun participant => participant.status != "cancelled"))
    assignLoop pools shuffledParticipants

/-- One roster entry of `buildRestaurantRosters`. -/
structure RestaurantRoster where
  restaurant : Restaurant
  captain : Option Participant
  participants : List Participant
  deriving Repr, DecidableEq

/-- `new Map(participants.map(p => [p.id, p])).get id`: with duplicate
ids the later entry overwrites the earlier, so lookup finds the last. -/
def lookupById (participants : List Participant) (id : String) : Option Participant :=
  participants.reverse.find? (fun participant => participant.id == id)

/-- `Map.get` on the insertion-ordered roster map. -/
def mapGet (m : List (String × RestaurantRoster)) (k : String) : Option RestaurantRoster :=
  (m.find? (fun e => e.1 == k)).map (fun e => e.2)

/-- `Map.set` on the insertion-ordered roster map: an existing key keeps
its position and takes the new value, a new key is appended. -/
def mapSet (m : List (String × RestaurantRoster)) (k : String) (v : RestaurantRoster) :
    List (String × RestaurantRoster) :=
  if m.any (fun e => e.1 == k) then
    m.map (fun e => if e.1 == k then (k, v) else e)
  else
    m ++ [(k, v)]

/-- The captain resolution of `buildRestaurantRosters`:
`restaurant.assigned_captain_id ? participantById.get(...) ?? null : null`. -/
def resolveCaptain (participants : List Participant) (restaurant : Restaurant) :
    Option Participant :=
  match restaurant.assigned_captain_id with
  | some captainId => if captainId != "" then lookupById participants captainId else none
  | none => none

/-- The `restaurants.forEach` seeding of the roster map. -/
def seedRosters (participants : List Participant) (restaurants : List Restaurant) :
    List (String × RestaurantRoster) :=
  restaurants.foldl
    (fun m restaurant =>
      mapSet m restaurant.id
        { restaurant := restaurant
          captain := resolveCaptain participants restaurant
          participants := [] })
    []

/-- The `assignments.forEach` step: push the resolved participant onto
the resolved roster's list, dropping unresolved references. -/
def pushAssignment (participants : List Participant)
    (m : List (String × RestaurantRoster)) (assignment : ParticipantAssignmentPlan) :
    List (String × RestaurantRoster) :=
  match mapGet m assignment.restaurantId, lookupById participants assignment.participantId with
  | some roster, some participant =>
    mapSet m assignment.restaurantId
      { roster with participants := roster.participants ++ [participant] }
  | _, _ => m

/-- `buildRestaurantRosters` from `assignment-utils.ts`, with
`String.prototype.localeCompare` supplied as the abstract comparator
`localeCompare`; the final per-roster `sort` is the stable JS sort,
modelled by the stable `List.insertionSort` on the comparator's `≤`. -/
def buildRestaurantRosters (localeCompare : String → String → Int)
    (restaurants : List Restaurant) (participants : List Participant)
    (assignments : List ParticipantAssignmentPlan) : List RestaurantRoster :=
  let rosterMap := assignments.foldl (pushAssignment participants)
    (seedRosters participants restaurants)
  rosterMap.map
    (fun e =>
      { e.2 with
        participants := e.2.participants.insertionSort
          (fun left right => localeCompare left.attendee_name right.attendee_name ≤ 0) })

/-! ### Concrete sample data for witnesses and counterexamples -/

/-- A fixed choice function: every `Math.random` draw picks index 0. -/
def randZero : (n : Nat) → Fin (n + 1) := fun n => ⟨0, n.succ_pos⟩

def sampleRestaurant (id : String) (seats : Int) (captainId : Option String) : Restaurant :=
  { id := id, name := "Venue", address := "Street 1", max_seats := seats,
    assigned_captain_id := captainId }

def sampleParticipant (id name : String) (captain : Bool) (status : String) : Participant :=
  { id := id, attendee_name := name, attendee_email := "mail@example.org",
    is_table_captain := captain, status := status }

/-- A concrete consistent comparator standing in for `localeCompare`. -/
def strCmp (a b : String) : Int := if a ≤ b then -1 else 1

/-- Key membership in the insertion-ordered roster map. -/
def hasKey (m : List (String × RestaurantRoster)) (k : String) : Prop :=
  ∃ e ∈ m, e.1 = k

/-- Remaining free seats over all pools. -/
def freeTotal (pools : List Pool) : Nat :=
  (pools.map (fun p => p.capacity - p.assigned)).sum

theorem cons_set_perm (t : List α) (m : Nat) (h : m < t.length) (a : α) :
    t[m] :: t.set m a ~ a :: t := by
  induction t generalizing m with
  | nil => simp at h
  | cons b s ih =>
    cases m with
    | zero => simpa using List.Perm.swap a b s
    | succ m =>
      have hm : m < s.length := by simpa using h
      calc s[m] :: b :: s.set m a
          ~ b :: s[m] :: s.set m a := List.Perm.swap _ _ _
        _ ~ b :: (a :: s) := (ih m hm).cons b
        _ ~ a :: b :: s := List.Perm.swap _ _ _

theorem double_set_perm (l : List α) (i j : Nat) (hi : i < l.length) (hj : j < l.length) :
    (l.set i l[j]).set j l[i] ~ l := by
  induction l generalizing i j with
  | nil => simp at hi
  | cons a t ih =>
    cases i with
    | zero =>
      cases j with
      | zero => simp
      | succ m =>
        have hm : m < t.length := by simpa using hj
        simpa using cons_set_perm t m hm a
    | succ n =>
      have hn : n < t.length := by simpa using hi
      cases j with
      | zero => simpa using cons_set_perm t n hn a
      | succ m =>
        have hm : m < t.length := by simpa using hj
        simpa using (ih n m hn hm).cons a

theorem listSwap_perm (l : List α) (i j : Nat) : listSwap l i j ~ l := by
  unfold listSwap
  cases hx : l[i]? with
  | none => exact List.Perm.refl l
  | some x =>
    cases hy : l[j]? with
    | none => exact List.Perm.refl l
    | some y =>
      obtain ⟨hi, hxe⟩ := List.getElem?_eq_some_iff.mp hx
      obtain ⟨hj, hye⟩ := List.getElem?_eq_some_iff.mp hy
      rw [← hxe, ← hye]
      exact double_set_perm l i j hi hj

theorem fisherYatesGo_perm (rand : (n : Nat) → Fin (n + 1)) (n : Nat) (l : List α) :
    fisherYatesGo rand n l ~ l := by
  induction n generalizing l with
  | zero => exact List.Perm.refl l
  | succ i ih =>
    exact (ih _).trans (listSwap_perm l (i + 1) (rand (i + 1)).val)

theorem randomShuffle_perm (rand : (n : Nat) → Fin (n + 1)) (items : List α) :
    randomShuffle rand items ~ items :=
  fisherYatesGo_perm rand (items.length - 1) items

/-! ### Helper lemmas about the captain allocator -/

theorem zipWith_plan_map_fst (rs : List Restaurant) (cs : List Participant)
    (h : rs.length ≤ cs.length) :
    ((rs.zipWith
        (fun restaurant captain =>
          ({ restaurantId := restaurant.id, captainId := captain.id } : CaptainAssignmentPlan))
        cs).map (fun e => e.restaurantId))
      = rs.map (fun r => r.id) := by
  induction rs generalizing cs with
  | nil => simp
  | cons r rs ih =>
    cases cs with
    | nil => simp at h
    | cons c cs =>
      simp only [List.zipWith_cons_cons, List.map_cons, List.cons.injEq, true_and]
      exact ih cs (by simpa using h)

theorem zipWith_plan_map_snd (rs : List Restaurant) (cs : List Participant) :
    ((rs.zipWith
        (fun restaurant captain =>
          ({ restaurantId := restaurant.id, captainId := captain.id } : CaptainAssignmentPlan))
        cs).map (fun e => e.captainId))
      = (cs.take rs.length).map (fun c => c.id) := by
  induction rs generalizing cs with
  | nil => simp
  | cons r rs ih =>
    cases cs with
    | nil => simp
    | cons c cs =>
      simp only [List.zipWith_cons_cons, List.map_cons, List.length_cons, List.take_succ_cons,
        List.cons.injEq, true_and]
      exact ih cs

/-! ### Claim theorems: captain allocator -/

/-- C4: `planCaptainAssignments` raises the capacity error naming the
required venue count and the available eligible (non-cancelled) captain
count exactly when the eligible captain count is below the venue count,
and otherwise returns a plan; an error result carries no plan entries. -/
theorem captain_capacity_error (rand : (n : Nat) → Fin (n + 1))
    (restaurants : List Restaurant) (captains : List Participant) :
    (planCaptainAssignments rand restaurants captains
        = Except.error (captainErrorMsg restaurants.length
            (captains.filter (fun captain => captain.status != "cancelled")).length)
      ↔ (captains.filter (fun captain => captain.status != "cancelled")).length
          < restaurants.length)
    ∧ (restaurants.length
          ≤ (captains.filter (fun captain => captain.status != "cancelled")).length →
        ∃ plan, planCaptainAssignments rand restaurants captains = Except.ok plan) := by
  unfold planCaptainAssignments
  by_cases h0 : restaurants.length = 0
  · simp only [if_pos h0]
    exact ⟨⟨fun h => Except.noConfusion h, fun h => absurd h (by omega)⟩, fun _ => ⟨[], rfl⟩⟩
  · by_cases hlt : (captains.filter (fun captain => captain.status != "cancelled")).length
        < restaurants.length
    · simp only [if_neg h0, if_pos hlt]
      exact ⟨⟨fun _ => hlt, fun _ => by trivial⟩, fun h => absurd h (by omega)⟩
    · simp only [if_neg h0, if_neg hlt]
      exact ⟨⟨fun h => Except.noConfusion h, fun h => absurd h hlt⟩, fun _ => ⟨_, rfl⟩⟩

/-- Witness for C4 at the spec's own scenario: 3 venues, 2 eligible
captains fails with the "need 3, have 2" error. -/
theorem captain_capacity_error_witness :
    planCaptainAssignments randZero
        [sampleRestaurant "r1" 4 none, sampleRestaurant "r2" 4 none, sampleRestaurant "r3" 4 none]
        [sampleParticipant "c1" "C1" true "registered",
          sampleParticipant "c2" "C2" true "registered"]
      = Except.error (captainErrorMsg 3 2) :=
  (captain_capacity_error randZero
      [sampleRestaurant "r1" 4 none, sampleRestaurant "r2" 4 none, sampleRestaurant "r3" 4 none]
      [sampleParticipant "c1" "C1" true "registered",
        sampleParticipant "c2" "C2" true "registered"]).1.mpr (by decide)

/-- C3 fails as stated: a captain list at least as long as the venue
list can still produce an error when a captain is cancelled, because the
guard compares the count of eligible (non-cancelled) captains. -/
theorem captain_bijection_cex :
    ([sampleParticipant "c1" "C1" true "cancelled"].length
        ≥ [sampleRestaurant "r1" 4 none].length)
    ∧ planCaptainAssignments randZero [sampleRestaurant "r1" 4 none]
        [sampleParticipant "c1" "C1" true "cancelled"]
      = Except.error (captainErrorMsg 1 0) := by
  constructor
  · decide
  · rfl

/-- C3 (amended): with pairwise-distinct venue and captain ids, whenever
the number of eligible (non-cancelled) captains is at least the number
of venues, `planCaptainAssignments` returns exactly one entry per venue,
in venue order (so each venue id appears exactly once), and no captain
id is used twice. -/
theorem captain_bijection (rand : (n : Nat) → Fin (n + 1))
    (restaurants : List Restaurant) (captains : List Participant)
    (hrids : (restaurants.map (fun r => r.id)).Nodup)
    (hcids : (captains.map (fun c => c.id)).Nodup)
    (hn : restaurants.length
        ≤ (captains.filter (fun captain => captain.status != "cancelled")).length) :
    ∃ plan, planCaptainAssignments rand restaurants captains = Except.ok plan
      ∧ plan.length = restaurants.length
      ∧ plan.map (fun e => e.restaurantId) = restaurants.map (fun r => r.id)
      ∧ (plan.map (fun e => e.restaurantId)).Nodup
      ∧ (plan.map (fun e => e.captainId)).Nodup := by
  by_cases h0 : restaurants.length = 0
  · obtain rfl : restaurants = [] := List.length_eq_zero.mp h0
    exact ⟨[], rfl, by simp, by simp, by simp, by simp⟩
  · have hshuffle := randomShuffle_perm rand
      (captains.filter (fun captain => captain.status != "cancelled"))
    have hlen : restaurants.length
        ≤ (randomShuffle rand
            (captains.filter (fun captain => captain.status != "cancelled"))).length := by
      rw [hshuffle.length_eq]; exact hn
    have hok : planCaptainAssignments rand restaurants captains
        = Except.ok (restaurants.zipWith
            (fun restaurant captain =>
              ({ restaurantId := restaurant.id, captainId := captain.id } :
                CaptainAssignmentPlan))
            (randomShuffle rand
              (captains.filter (fun captain => captain.status != "cancelled")))) := by
      unfold planCaptainAssignments
      simp only [if_neg h0, if_neg (Nat.not_lt.mpr hn)]
    refine ⟨_, hok, ?_, zipWith_plan_map_fst _ _ hlen, ?_, ?_⟩
    · simpa using congrArg List.length (zipWith_plan_map_fst _ _ hlen)
    · rw [zipWith_plan_map_fst _ _ hlen]; exact hrids
    · rw [zipWith_plan_map_snd]
      have h1 : ((captains.filter (fun captain => captain.status != "cancelled")).map
          (fun c => c.id)).Nodup :=
        ((List.filter_sublist captains).map (fun c => c.id)).nodup hcids
      have h2 : ((randomShuffle rand
          (captains.filter (fun captain => captain.status != "cancelled"))).map
            (fun c => c.id)).Nodup :=
        ((hshuffle.map (fun c => c.id)).symm).nodup h1
      rw [List.map_take]
      exact (List.take_sublist _ _).nodup h2

/-- Witness for the amended C3: two venues, three eligible captains,
the plan covers both venues. -/
theorem captain_bijection_witness :
    (planCaptainAssignments randZero
        [sampleRestaurant "r1" 4 none, sampleRestaurant "r2" 4 none]
        [sampleParticipant "c1" "C1" true "registered",
          sampleParticipant "c2" "C2" true "registered",
          sampleParticipant "c3" "C3" true "registered"]).map
      (fun plan => plan.length) = Except.ok 2 := by
  obtain ⟨plan, hok, hlen, _, _, _⟩ := captain_bijection randZero
    [sampleRestaurant "r1" 4 none, sampleRestaurant "r2" 4 none]
    [sampleParticipant "c1" "C1" true "registered",
      sampleParticipant "c2" "C2" true "registered",
      sampleParticipant "c3" "C3" true "registered"]
    (by decide) (by decide) (by decide)
  rw [hok]
  show Except.ok plan.length = Except.ok 2
  rw [hlen]
  rfl

/-! ### Claim theorems: empty qualifying-venue set (C7) -/

/-- C7: with `requireCaptain` left at its default `true`, when no venue
carries an assigned captain the allocator returns no assignments and
every input participant verbatim in `unassigned`, raising no error. -/
theorem no_captain_all_unassigned (rand : (n : Nat) → Fin (n + 1))
    (restaurants : List Restaurant) (participants : List Participant)
    (h : ∀ r ∈ restaurants, r.assigned_captain_id = none) :
    planParticipantAssignments rand restaurants participants true = ([], participants) := by
  have hfilter : restaurants.filter
      (fun restaurant =>
        if (true : Bool) then truthyId restaurant.assigned_captain_id else true) = [] := by
    rw [List.filter_eq_nil_iff]
    intro r hr
    simp [h r hr, truthyId]
  unfold planParticipantAssignments
  rw [hfilter]
  rfl

/-- Witness for C7 at a concrete captainless venue. -/
theorem no_captain_all_unassigned_witness :
    planParticipantAssignments randZero [sampleRestaurant "r1" 4 none]
        [sampleParticipant "p1" "Ann" false "registered"] true
      = ([], [sampleParticipant "p1" "Ann" false "registered"]) :=
  no_captain_all_unassigned randZero [sampleRestaurant "r1" 4 none]
    [sampleParticipant "p1" "Ann" false "registered"] (by decide)

/-! ### Claim theorems: roster builder (C8, C9) -/

/-- C8: every roster entry's participant list is sorted ascending by
display name under the (consistent) name comparator: the transitivity
and totality hypotheses are the properties `localeCompare` guarantees. -/
theorem rosters_sorted_by_name (localeCompare : String → String → Int)
    (htrans : ∀ a b c, localeCompare a b ≤ 0 → localeCompare b c ≤ 0 → localeCompare a c ≤ 0)
    (htotal : ∀ a b, localeCompare a b ≤ 0 ∨ localeCompare b a ≤ 0)
    (restaurants : List Restaurant) (participants : List Participant)
    (assignments : List ParticipantAssignmentPlan) :
    ∀ roster ∈ buildRestaurantRosters localeCompare restaurants participants assignments,
      roster.participants.Pairwise
        (fun left right => localeCompare left.attendee_name right.attendee_name ≤ 0) := by
  intro roster hmem
  unfold buildRestaurantRosters at hmem
  rw [List.mem_map] at hmem
  obtain ⟨e, _, rfl⟩ := hmem
  haveI : IsTrans Participant
      (fun left right => localeCompare left.attendee_name right.attendee_name ≤ 0) :=
    ⟨fun a b c hab hbc => htrans _ _ _ hab hbc⟩
  haveI : IsTotal Participant
      (fun left right => localeCompare left.attendee_name right.attendee_name ≤ 0) :=
    ⟨fun a b => htotal _ _⟩
  exact List.sorted_insertionSort _ e.2.participants

theorem strCmp_le_iff (a b : String) : strCmp a b ≤ 0 ↔ a ≤ b := by
  unfold strCmp
  by_cases h : a ≤ b <;> simp [h]

/-- Witness for C8 on concrete data with `strCmp` as the comparator. -/
theorem rosters_sorted_by_name_witness :
    (buildRestaurantRosters strCmp
        [sampleRestaurant "r1" 4 (some "c1")]
        [sampleParticipant "p1" "Zoe" false "registered",
          sampleParticipant "p2" "Ann" false "registered"]
        [{ participantId := "p1", restaurantId := "r1" },
          { participantId := "p2", restaurantId := "r1" }]).Forall
      (fun roster => roster.participants.Pairwise
        (fun left right => strCmp left.attendee_name right.attendee_name ≤ 0)) := by
  rw [List.forall_iff_forall_mem]
  exact rosters_sorted_by_name strCmp
    (fun a b c hab hbc => ((strCmp_le_iff a c).mpr
      (le_trans ((strCmp_le_iff a b).mp hab) ((strCmp_le_iff b c).mp hbc))))
    (fun a b => by
      rcases le_total a b with h | h
      · exact Or.inl ((strCmp_le_iff a b).mpr h)
      · exact Or.inr ((strCmp_le_iff b a).mpr h))
    _ _ _

theorem mapGet_isSome_iff (m : List (String × RestaurantRoster)) (k : String) :
    (mapGet m k).isSome ↔ hasKey m k := by
  simp [mapGet, hasKey, List.find?_isSome]

theorem hasKey_mapSet (m : List (String × RestaurantRoster)) (k' : String)
    (v : RestaurantRoster) (k : String) :
    hasKey (mapSet m k' v) k ↔ (k = k' ∨ hasKey m k) := by
  unfold mapSet
  by_cases hany : (m.any fun e => e.1 == k') = true
  · rw [if_pos hany]
    unfold hasKey
    constructor
    · rintro ⟨e, he, hk⟩
      rw [List.mem_map] at he
      obtain ⟨e0, he0, rfl⟩ := he
      by_cases h0 : (e0.1 == k') = true
      · rw [if_pos h0] at hk
        exact Or.inl hk.symm
      · rw [if_neg h0] at hk
        exact Or.inr ⟨e0, he0, hk⟩
    · rintro (rfl | ⟨e0, he0, hk⟩)
      · rw [List.any_eq_true] at hany
        obtain ⟨e0, he0, h0⟩ := hany
        exact ⟨(k, v), List.mem_map.mpr ⟨e0, he0, by rw [if_pos h0]⟩, rfl⟩
      · by_cases h0 : (e0.1 == k') = true
        · refine ⟨(k', v), List.mem_map.mpr ⟨e0, he0, by rw [if_pos h0]⟩, ?_⟩
          have : e0.1 = k' := by simpa using h0
          rw [← this, hk]
        · exact ⟨e0, List.mem_map.mpr ⟨e0, he0, by rw [if_neg h0]⟩, hk⟩
  · rw [if_neg hany]
    unfold hasKey
    simp only [List.mem_append, List.mem_singleton]
    constructor
    · rintro ⟨e, he | rfl, hk⟩
      · exact Or.inr ⟨e, he, hk⟩
      · exact Or.inl hk.symm
    · rintro (rfl | ⟨e, he, hk⟩)
      · exact ⟨(k, v), Or.inr rfl, rfl⟩
      · exact ⟨e, Or.inl he, hk⟩

theorem hasKey_pushAssignment (participants : List Participant)
    (m : List (String × RestaurantRoster)) (a : ParticipantAssignmentPlan) (k : String) :
    hasKey (pushAssignment participants m a) k ↔ hasKey m k := by
  unfold pushAssignment
  cases hg : mapGet m a.restaurantId with
  | none => exact Iff.rfl
  | some roster =>
    cases hl : lookupById participants a.participantId with
    | none => exact Iff.rfl
    | some p =>
      rw [hasKey_mapSet]
      constructor
      · rintro (rfl | hk)
        · exact (mapGet_isSome_iff m a.restaurantId).mp (by rw [hg]; rfl)
        · exact hk
      · exact Or.inr

theorem pushAssignment_invalid (participants : List Participant)
    (m : List (String × RestaurantRoster)) (a : ParticipantAssignmentPlan)
    (h : ¬((lookupById participants a.participantId).isSome ∧ hasKey m a.restaurantId)) :
    pushAssignment participants m a = m := by
  unfold pushAssignment
  cases hg : mapGet m a.restaurantId with
  | none => rfl
  | some roster =>
    cases hl : lookupById participants a.participantId with
    | none => rfl
    | some p =>
      exact absurd ⟨by rw [hl]; rfl,
        (mapGet_isSome_iff m a.restaurantId).mp (by rw [hg]; rfl)⟩ h

theorem seed_hasKey_aux (participants : List Participant) (restaurants : List Restaurant)
    (m0 : List (String × RestaurantRoster)) (k : String) :
    hasKey (restaurants.foldl
        (fun m restaurant =>
          mapSet m restaurant.id
            { restaurant := restaurant
              captain := resolveCaptain participants restaurant
              participants := [] })
        m0) k
      ↔ (hasKey m0 k ∨ ∃ r ∈ restaurants, r.id = k) := by
  induction restaurants generalizing m0 with
  | nil => simp
  | cons r rs ih =>
    simp only [List.foldl_cons]
    rw [ih, hasKey_mapSet]
    constructor
    · rintro ((rfl | hm) | ⟨r0, hr0, hk⟩)
      · exact Or.inr ⟨r, List.mem_cons_self r rs, rfl⟩
      · exact Or.inl hm
      · exact Or.inr ⟨r0, List.mem_cons_of_mem r hr0, hk⟩
    · rintro (hm | ⟨r0, hr0, hk⟩)
      · exact Or.inl (Or.inr hm)
      · rcases List.mem_cons.mp hr0 with rfl | hr0
        · exact Or.inl (Or.inl hk.symm)
        · exact Or.inr ⟨r0, hr0, hk⟩

theorem seed_hasKey (participants : List Participant) (restaurants : List Restaurant)
    (k : String) :
    hasKey (seedRosters participants restaurants) k ↔ ∃ r ∈ restaurants, r.id = k := by
  unfold seedRosters
  rw [seed_hasKey_aux]
  simp [hasKey]

theorem foldl_push_filter (participants : List Participant) (restaurants : List Restaurant)
    (assignments : List ParticipantAssignmentPlan) :
    ∀ m : List (String × RestaurantRoster),
      (∀ k, hasKey m k ↔ ∃ r ∈ restaurants, r.id = k) →
      (assignments.filter
          (fun a => (lookupById participants a.participantId).isSome
            && restaurants.any (fun r => r.id == a.restaurantId))).foldl
          (pushAssignment participants) m
        = assignments.foldl (pushAssignment participants) m := by
  induction assignments with
  | nil => intro m _; rfl
  | cons a rest ih =>
    intro m hm
    by_cases hv : ((lookupById participants a.participantId).isSome
        && restaurants.any (fun r => r.id == a.restaurantId)) = true
    · rw [List.filter_cons, if_pos hv]
      simp only [List.foldl_cons]
      exact ih _ (fun k => (hasKey_pushAssignment participants m a k).trans (hm k))
    · rw [List.filter_cons, if_neg hv]
      simp only [List.foldl_cons]
      have hskip : pushAssignment participants m a = m := by
        apply pushAssignment_invalid
        rintro ⟨h1, h2⟩
        apply hv
        rw [Bool.and_eq_true]
        refine ⟨h1, ?_⟩
        rw [List.any_eq_true]
        obtain ⟨r, hr, hid⟩ := (hm _).mp h2
        exact ⟨r, hr, by simp [hid]⟩
      rw [hskip]
      exact ih m hm

/-- C9: assignments whose participant id or venue id does not resolve
are silently dropped — filtering them away first yields the very same
roster output, so they contribute nothing and never fail the build. -/
theorem stale_assignment_references_dropped (localeCompare : String → String → Int)
    (restaurants : List Restaurant) (participants : List Participant)
    (assignments : List ParticipantAssignmentPlan) :
    buildRestaurantRosters localeCompare restaurants participants
        (assignments.filter
          (fun a => (lookupById participants a.participantId).isSome
            && restaurants.any (fun r => r.id == a.restaurantId)))
      = buildRestaurantRosters localeCompare restaurants participants assignments := by
  unfold buildRestaurantRosters
  rw [foldl_push_filter participants restaurants assignments
    (seedRosters participants restaurants) (seed_hasKey participants restaurants)]

/-! ### Helper lemmas: target selection and pool updates -/

theorem chooseTarget_mem {pools : List Pool} {t : Pool} (h : chooseTarget pools = some t) :
    t ∈ pools ∧ 0 < t.capacity := by
  simp only [chooseTarget] at h
  cases hf : (pools.insertionSort fun a b => poolCmp a b ≤ 0).find?
      (fun pool => 0 < pool.capacity && pool.assigned < pool.capacity) with
  | some u =>
    rw [hf] at h
    cases h
    have hmem := List.mem_of_find?_eq_some hf
    rw [List.mem_insertionSort] at hmem
    have hpred := List.find?_some hf
    rw [Bool.and_eq_true] at hpred
    exact ⟨hmem, by simpa using hpred.1⟩
  | none =>
    rw [hf] at h
    simp only [] at h
    cases hs : pools.insertionSort fun a b => poolCmp a b ≤ 0 with
    | nil => rw [hs] at h; cases h
    | cons u rest =>
      rw [hs] at h
      simp only [] at h
      by_cases hcap : 0 < u.capacity
      · rw [if_pos hcap] at h
        obtain rfl : u = t := Option.some.inj h
        have hmem : u ∈ pools.insertionSort fun a b => poolCmp a b ≤ 0 := by
          rw [hs]; exact List.mem_cons_self _ _
        rw [List.mem_insertionSort] at hmem
        exact ⟨hmem, hcap⟩
      · rw [if_neg hcap] at h
        cases h

theorem chooseTarget_free {pools : List Pool} (h : ∃ p ∈ pools, p.assigned < p.capacity) :
    ∃ t, chooseTarget pools = some t ∧ t.assigned < t.capacity := by
  have hexists : ∃ x, x ∈ (pools.insertionSort fun a b => poolCmp a b ≤ 0)
      ∧ (0 < x.capacity && x.assigned < x.capacity) = true := by
    obtain ⟨p, hp, hfree⟩ := h
    refine ⟨p, (List.mem_insertionSort _).mpr hp, ?_⟩
    rw [Bool.and_eq_true]
    exact ⟨by simp; omega, by simpa using hfree⟩
  have hsome := List.find?_isSome.mpr hexists
  obtain ⟨u, hu⟩ := Option.isSome_iff_exists.mp hsome
  refine ⟨u, ?_, ?_⟩
  · simp only [chooseTarget]
    rw [hu]
  · have hpred := List.find?_some hu
    rw [Bool.and_eq_true] at hpred
    simpa using hpred.2

theorem chooseTarget_isSome_of_pos {pools : List Pool} (hne : pools ≠ [])
    (hcap : ∀ p ∈ pools, 0 < p.capacity) :
    ∃ t, chooseTarget pools = some t := by
  simp only [chooseTarget]
  cases hf : (pools.insertionSort fun a b => poolCmp a b ≤ 0).find?
      (fun pool => 0 < pool.capacity && pool.assigned < pool.capacity) with
  | some u => exact ⟨u, rfl⟩
  | none =>
    cases hs : pools.insertionSort fun a b => poolCmp a b ≤ 0 with
    | nil =>
      exfalso
      have hlen := congrArg List.length hs
      rw [List.length_insertionSort] at hlen
      exact hne (List.length_eq_zero.mp (by simpa using hlen))
    | cons u rest =>
      have hu : u ∈ pools := by
        have hmem : u ∈ pools.insertionSort fun a b => poolCmp a b ≤ 0 := by
          rw [hs]; exact List.mem_cons_self _ _
        exact (List.mem_insertionSort _).mp hmem
      refine ⟨u, ?_⟩
      simp only []
      rw [if_pos (hcap u hu)]

theorem chooseTarget_none_of_zero {pools : List Pool} (hcap : ∀ p ∈ pools, p.capacity = 0) :
    chooseTarget pools = none := by
  simp only [chooseTarget]
  have hf : (pools.insertionSort fun a b => poolCmp a b ≤ 0).find?
      (fun pool => 0 < pool.capacity && pool.assigned < pool.capacity) = none := by
    rw [List.find?_eq_none]
    intro x hx
    rw [List.mem_insertionSort] at hx
    simp [hcap x hx]
  rw [hf]
  cases hs : pools.insertionSort fun a b => poolCmp a b ≤ 0 with
  | nil => rfl
  | cons u rest =>
    have hu : u ∈ pools := by
      have hmem : u ∈ pools.insertionSort fun a b => poolCmp a b ≤ 0 := by
        rw [hs]; exact List.mem_cons_self _ _
      exact (List.mem_insertionSort _).mp hmem
    simp only []
    rw [if_neg (by simp [hcap u hu])]

theorem bumpFirst_map_id (pools : List Pool) (targetId : String) :
    (bumpFirst pools targetId).map (fun p => p.id) = pools.map (fun p => p.id) := by
  induction pools with
  | nil => rfl
  | cons p rest ih =>
    unfold bumpFirst
    by_cases h : p.id = targetId
    · rw [if_pos h]; simp
    · rw [if_neg h]; simpa using ih

theorem bumpFirst_length (pools : List Pool) (targetId : String) :
    (bumpFirst pools targetId).length = pools.length := by
  have h := congrArg List.length (bumpFirst_map_id pools targetId)
  simpa using h

theorem mem_bumpFirst {pools : List Pool} {targetId : String} {q : Pool}
    (h : q ∈ bumpFirst pools targetId) :
    q ∈ pools ∨ ∃ p ∈ pools, q = { p with assigned := p.assigned + 1 } := by
  induction pools with
  | nil => simp [bumpFirst] at h
  | cons p rest ih =>
    unfold bumpFirst at h
    by_cases hid : p.id = targetId
    · rw [if_pos hid] at h
      rcases List.mem_cons.mp h with rfl | hq
      · exact Or.inr ⟨p, List.mem_cons_self _ _, rfl⟩
      · exact Or.inl (List.mem_cons_of_mem _ hq)
    · rw [if_neg hid] at h
      rcases List.mem_cons.mp h with rfl | hq
      · exact Or.inl (List.mem_cons_self _ _)
      · rcases ih hq with h1 | ⟨p0, hp0, rfl⟩
        · exact Or.inl (List.mem_cons_of_mem _ h1)
        · exact Or.inr ⟨p0, List.mem_cons_of_mem _ hp0, rfl⟩

theorem bumpFirst_of_nodup {pools : List Pool} {t : Pool} (ht : t ∈ pools)
    (hnd : (pools.map (fun p => p.id)).Nodup) :
    bumpFirst pools t.id
      = pools.map
          (fun q => if q.id = t.id then { q with assigned := q.assigned + 1 } else q) := by
  induction pools with
  | nil => rfl
  | cons p rest ih =>
    rw [List.map_cons] at hnd
    obtain ⟨hnotin, hndrest⟩ := List.nodup_cons.mp hnd
    unfold bumpFirst
    by_cases hid : p.id = t.id
    · rw [if_pos hid, List.map_cons, if_pos hid]
      congr 1
      symm
      calc rest.map (fun q => if q.id = t.id then { q with assigned := q.assigned + 1 } else q)
          = rest.map id := by
            apply List.map_congr_left
            intro q hq
            have hqid : ¬q.id = t.id := fun hqid =>
              hnotin (List.mem_map.mpr ⟨q, hq, hqid.trans hid.symm⟩)
            rw [if_neg hqid]
            rfl
        _ = rest := List.map_id rest
    · rw [if_neg hid, List.map_cons, if_neg hid]
      congr 1
      have ht' : t ∈ rest := by
        rcases List.mem_cons.mp ht with rfl | h1
        · exact absurd rfl hid
        · exact h1
      exact ih ht' hndrest

theorem freeTotal_eq_zero {pools : List Pool} (h : ∀ p ∈ pools, p.capacity ≤ p.assigned) :
    freeTotal pools = 0 := by
  unfold freeTotal
  induction pools with
  | nil => rfl
  | cons p rest ih =>
    rw [List.map_cons, List.sum_cons,
      Nat.sub_eq_zero_of_le (h p (List.mem_cons_self _ _)), Nat.zero_add]
    exact ih (fun q hq => h q (List.mem_cons_of_mem _ hq))

theorem exists_free_of_freeTotal_pos {pools : List Pool} (h : 0 < freeTotal pools) :
    ∃ p ∈ pools, p.assigned < p.capacity := by
  by_contra hno
  push_neg at hno
  have hz : freeTotal pools = 0 := freeTotal_eq_zero hno
  omega

theorem freeTotal_bump {pools : List Pool} {t : Pool} (ht : t ∈ pools)
    (hnd : (pools.map (fun p => p.id)).Nodup) (hfree : t.assigned < t.capacity) :
    freeTotal (bumpFirst pools t.id) + 1 = freeTotal pools := by
  induction pools with
  | nil => cases ht
  | cons p rest ih =>
    rw [List.map_cons] at hnd
    obtain ⟨hnotin, hndrest⟩ := List.nodup_cons.mp hnd
    unfold bumpFirst
    by_cases hid : p.id = t.id
    · rw [if_pos hid]
      have hpt : p = t := by
        rcases List.mem_cons.mp ht with rfl | h1
        · rfl
        · exact absurd (List.mem_map.mpr ⟨t, h1, hid.symm⟩) hnotin
      unfold freeTotal
      rw [List.map_cons, List.sum_cons, List.map_cons, List.sum_cons]
      have hcap : p.assigned < p.capacity := hpt ▸ hfree
      simp only []
      omega
    · rw [if_neg hid]
      have ht' : t ∈ rest := by
        rcases List.mem_cons.mp ht with rfl | h1
        · exact absurd rfl hid
        · exact h1
      have hrec := ih ht' hndrest
      unfold freeTotal at hrec ⊢
      rw [List.map_cons, List.sum_cons, List.map_cons, List.sum_cons]
      omega

/-! ### Helper lemmas: the participant assignment loop -/

theorem assignLoop_zero_cap {pools : List Pool} (hcap : ∀ p ∈ pools, p.capacity = 0)
    (ps : List Participant) :
    assignLoop pools ps = ([], ps.filter (fun x => !x.is_table_captain)) := by
  induction ps with
  | nil => rfl
  | cons x rest ih =>
    by_cases hx : x.is_table_captain = true
    · simp [assignLoop, hx, ih, List.filter_cons]
    · have hx' : x.is_table_captain = false := by simpa using hx
      simp [assignLoop, hx', chooseTarget_none_of_zero hcap, ih, List.filter_cons]

theorem assignLoop_all_placed {pools : List Pool} (ps : List Participant)
    (hne : pools ≠ []) (hcap : ∀ p ∈ pools, 0 < p.capacity) :
    (assignLoop pools ps).2 = []
    ∧ (assignLoop pools ps).1.map (fun a => a.participantId)
        = (ps.filter (fun x => !x.is_table_captain)).map (fun x => x.id) := by
  induction ps generalizing pools with
  | nil => exact ⟨rfl, rfl⟩
  | cons x rest ih =>
    by_cases hx : x.is_table_captain = true
    · have heq : assignLoop pools (x :: rest) = assignLoop pools rest := by
        simp [assignLoop, hx]
      have hfil : (x :: rest).filter (fun x => !x.is_table_captain)
          = rest.filter (fun x => !x.is_table_captain) := by
        simp [List.filter_cons, hx]
      rw [heq, hfil]
      exact ih hne hcap
    · have hx' : x.is_table_captain = false := by simpa using hx
      obtain ⟨t, htarget⟩ := chooseTarget_isSome_of_pos hne hcap
      have hne' : bumpFirst pools t.id ≠ [] := by
        intro h0
        have hlen := bumpFirst_length pools t.id
        rw [h0] at hlen
        exact hne (List.length_eq_zero.mp hlen.symm)
      have hcap' : ∀ q ∈ bumpFirst pools t.id, 0 < q.capacity := by
        intro q hq
        rcases mem_bumpFirst hq with h1 | ⟨p0, hp0, rfl⟩
        · exact hcap q h1
        · simpa using hcap p0 hp0
      have heq1 : (assignLoop pools (x :: rest)).1
          = { participantId := x.id, restaurantId := t.id }
              :: (assignLoop (bumpFirst pools t.id) rest).1 := by
        simp [assignLoop, hx', htarget]
      have heq2 : (assignLoop pools (x :: rest)).2
          = (assignLoop (bumpFirst pools t.id) rest).2 := by
        simp [assignLoop, hx', htarget]
      obtain ⟨h1, h2⟩ := ih hne' hcap'
      refine ⟨by rw [heq2]; exact h1, ?_⟩
      rw [heq1, List.map_cons, h2, List.filter_cons]
      simp [hx']

theorem assignLoop_target_from_pool {pools : List Pool} {ps : List Participant} :
    ∀ a ∈ (assignLoop pools ps).1, ∃ p ∈ pools, p.id = a.restaurantId ∧ 0 < p.capacity := by
  induction ps generalizing pools with
  | nil => intro a ha; simp [assignLoop] at ha
  | cons x rest ih =>
    intro a ha
    by_cases hx : x.is_table_captain = true
    · rw [show assignLoop pools (x :: rest) = assignLoop pools rest by simp [assignLoop, hx]] at ha
      exact ih a ha
    · have hx' : x.is_table_captain = false := by simpa using hx
      cases htarget : chooseTarget pools with
      | none =>
        have heq1 : (assignLoop pools (x :: rest)).1 = (assignLoop pools rest).1 := by
          simp [assignLoop, hx', htarget]
        rw [heq1] at ha
        exact ih a ha
      | some t =>
        have heq1 : (assignLoop pools (x :: rest)).1
            = { participantId := x.id, restaurantId := t.id }
                :: (assignLoop (bumpFirst pools t.id) rest).1 := by
          simp [assignLoop, hx', htarget]
        rw [heq1] at ha
        rcases List.mem_cons.mp ha with rfl | ha
        · obtain ⟨htmem, htcap⟩ := chooseTarget_mem htarget
          exact ⟨t, htmem, rfl, htcap⟩
        · obtain ⟨q, hq, hqid, hqcap⟩ := ih a ha
          rcases mem_bumpFirst hq with h1 | ⟨p0, hp0, rfl⟩
          · exact ⟨q, h1, hqid, hqcap⟩
          · exact ⟨p0, hp0, by simpa using hqid, by simpa using hqcap⟩

theorem assignLoop_unassigned_from {pools : List Pool} {ps : List Participant} :
    ∀ x ∈ (assignLoop pools ps).2, x ∈ ps ∧ x.is_table_captain = false := by
  induction ps generalizing pools with
  | nil => intro x hx; simp [assignLoop] at hx
  | cons y rest ih =>
    intro x hx
    by_cases hy : y.is_table_captain = true
    · rw [show assignLoop pools (y :: rest) = assignLoop pools rest by simp [assignLoop, hy]] at hx
      obtain ⟨h1, h2⟩ := ih x hx
      exact ⟨List.mem_cons_of_mem _ h1, h2⟩
    · have hy' : y.is_table_captain = false := by simpa using hy
      cases htarget : chooseTarget pools with
      | none =>
        have heq2 : (assignLoop pools (y :: rest)).2 = y :: (assignLoop pools rest).2 := by
          simp [assignLoop, hy', htarget]
        rw [heq2] at hx
        rcases List.mem_cons.mp hx with rfl | hx
        · exact ⟨List.mem_cons_self _ _, hy'⟩
        · obtain ⟨h1, h2⟩ := ih x hx
          exact ⟨List.mem_cons_of_mem _ h1, h2⟩
      | some t =>
        have heq2 : (assignLoop pools (y :: rest)).2
            = (assignLoop (bumpFirst pools t.id) rest).2 := by
          simp [assignLoop, hy', htarget]
        rw [heq2] at hx
        obtain ⟨h1, h2⟩ := ih x hx
        exact ⟨List.mem_cons_of_mem _ h1, h2⟩

theorem assignLoop_assigned_from {pools : List Pool} {ps : List Participant} :
    ∀ a ∈ (assignLoop pools ps).1,
      ∃ p ∈ ps, p.id = a.participantId ∧ p.is_table_captain = false := by
  induction ps generalizing pools with
  | nil => intro a ha; simp [assignLoop] at ha
  | cons x rest ih =>
    intro a ha
    by_cases hx : x.is_table_captain = true
    · rw [show assignLoop pools (x :: rest) = assignLoop pools rest by simp [assignLoop, hx]] at ha
      obtain ⟨p, h1, h2, h3⟩ := ih a ha
      exact ⟨p, List.mem_cons_of_mem _ h1, h2, h3⟩
    · have hx' : x.is_table_captain = false := by simpa using hx
      cases htarget : chooseTarget pools with
      | none =>
        have heq1 : (assignLoop pools (x :: rest)).1 = (assignLoop pools rest).1 := by
          simp [assignLoop, hx', htarget]
        rw [heq1] at ha
        obtain ⟨p, h1, h2, h3⟩ := ih a ha
        exact ⟨p, List.mem_cons_of_mem _ h1, h2, h3⟩
      | some t =>
        have heq1 : (assignLoop pools (x :: rest)).1
            = { participantId := x.id, restaurantId := t.id }
                :: (assignLoop (bumpFirst pools t.id) rest).1 := by
          simp [assignLoop, hx', htarget]
        rw [heq1] at ha
        rcases List.mem_cons.mp ha with rfl | ha
        · exact ⟨x, List.mem_cons_self _ _, rfl, hx'⟩
        · obtain ⟨p, h1, h2, h3⟩ := ih a ha
          exact ⟨p, List.mem_cons_of_mem _ h1, h2, h3⟩

theorem assignLoop_ids_sublist (pools : List Pool) (ps : List Participant) :
    ((assignLoop pools ps).1.map (fun a => a.participantId)).Sublist
      (ps.map (fun p => p.id)) := by
  induction ps generalizing pools with
  | nil => simp [assignLoop]
  | cons x rest ih =>
    by_cases hx : x.is_table_captain = true
    · rw [show assignLoop pools (x :: rest) = assignLoop pools rest by simp [assignLoop, hx]]
      exact (ih pools).cons _
    · have hx' : x.is_table_captain = false := by simpa using hx
      cases htarget : chooseTarget pools with
      | none =>
        have heq1 : (assignLoop pools (x :: rest)).1 = (assignLoop pools rest).1 := by
          simp [assignLoop, hx', htarget]
        rw [heq1]
        exact (ih pools).cons _
      | some t =>
        have heq1 : (assignLoop pools (x :: rest)).1
            = { participantId := x.id, restaurantId := t.id }
                :: (assignLoop (bumpFirst pools t.id) rest).1 := by
          simp [assignLoop, hx', htarget]
        rw [heq1, List.map_cons]
        exact (ih (bumpFirst pools t.id)).cons₂ _

theorem assignLoop_no_overbook {pools : List Pool} (ps : List Participant)
    (hnd : (pools.map (fun p => p.id)).Nodup)
    (hbound : ∀ p ∈ pools, p.assigned ≤ p.capacity)
    (hcount : ps.countP (fun x => !x.is_table_captain) ≤ freeTotal pools) :
    (assignLoop pools ps).2 = []
    ∧ (assignLoop pools ps).1.map (fun a => a.participantId)
        = (ps.filter (fun x => !x.is_table_captain)).map (fun x => x.id)
    ∧ ∀ pool ∈ pools,
        ((assignLoop pools ps).1.filter (fun a => a.restaurantId == pool.id)).length
          ≤ pool.capacity - pool.assigned := by
  induction ps generalizing pools with
  | nil => exact ⟨rfl, rfl, fun pool _ => by simp [assignLoop]⟩
  | cons x rest ih =>
    by_cases hx : x.is_table_captain = true
    · have heq : assignLoop pools (x :: rest) = assignLoop pools rest := by
        simp [assignLoop, hx]
      have hc : rest.countP (fun x => !x.is_table_captain) ≤ freeTotal pools := by
        rw [List.countP_cons] at hcount
        simpa [hx] using hcount
      have hfil : (x :: rest).filter (fun x => !x.is_table_captain)
          = rest.filter (fun x => !x.is_table_captain) := by
        simp [List.filter_cons, hx]
      rw [heq, hfil]
      exact ih hnd hbound hc
    · have hx' : x.is_table_captain = false := by simpa using hx
      have hpos : 0 < freeTotal pools := by
        rw [List.countP_cons] at hcount
        simp [hx'] at hcount
        omega
      obtain ⟨t, htarget, htfree⟩ :=
        chooseTarget_free (exists_free_of_freeTotal_pos hpos)
      have htmem : t ∈ pools := (chooseTarget_mem htarget).1
      have hbump := bumpFirst_of_nodup htmem hnd
      have hnd' : ((bumpFirst pools t.id).map (fun p => p.id)).Nodup := by
        rw [bumpFirst_map_id]; exact hnd
      have hbound' : ∀ q ∈ bumpFirst pools t.id, q.assigned ≤ q.capacity := by
        intro q hq
        rw [hbump, List.mem_map] at hq
        obtain ⟨q0, hq0, rfl⟩ := hq
        by_cases h0 : q0.id = t.id
        · rw [if_pos h0]
          have hq0t : q0 = t := List.inj_on_of_nodup_map hnd hq0 htmem h0
          subst hq0t
          simp only []
          omega
        · rw [if_neg h0]
          exact hbound q0 hq0
      have hfree' := freeTotal_bump htmem hnd htfree
      have hcount' : rest.countP (fun x => !x.is_table_captain)
          ≤ freeTotal (bumpFirst pools t.id) := by
        rw [List.countP_cons] at hcount
        simp [hx'] at hcount
        omega
      have heq1 : (assignLoop pools (x :: rest)).1
          = { participantId := x.id, restaurantId := t.id }
              :: (assignLoop (bumpFirst pools t.id) rest).1 := by
        simp [assignLoop, hx', htarget]
      have heq2 : (assignLoop pools (x :: rest)).2
          = (assignLoop (bumpFirst pools t.id) rest).2 := by
        simp [assignLoop, hx', htarget]
      obtain ⟨h1, h2, h3⟩ := ih hnd' hbound' hcount'
      refine ⟨by rw [heq2]; exact h1, ?_, ?_⟩
      · rw [heq1, List.map_cons, h2, List.filter_cons]
        simp [hx']
      · intro pool hpool
        rw [heq1, List.filter_cons]
        by_cases hpid : (t.id == pool.id) = true
        · have hpt : pool = t :=
            List.inj_on_of_nodup_map hnd hpool htmem (eq_of_beq hpid).symm
          subst hpt
          rw [if_pos (by simp only []; exact hpid)]
          have hb : ({ pool with assigned := pool.assigned + 1 }) ∈ bumpFirst pools pool.id := by
            rw [hbump]
            exact List.mem_map.mpr ⟨pool, htmem, by rw [if_pos rfl]⟩
          have hcount2 := h3 _ hb
          simp only [] at hcount2
          simp only [List.length_cons]
          omega
        · rw [if_neg (by simpa using hpid)]
          have hpool' : pool ∈ bumpFirst pools t.id := by
            rw [hbump]
            refine List.mem_map.mpr ⟨pool, hpool, ?_⟩
            rw [if_neg]
            intro hpoolid
            exact absurd (by simp [hpoolid] : (t.id == pool.id) = true) hpid
          exact h3 pool hpool'

/-! ### Unfolding the participant allocator at `requireCaptain = true` -/

theorem planParticipant_eq_empty (rand : (n : Nat) → Fin (n + 1))
    (restaurants : List Restaurant) (participants : List Participant)
    (h : restaurants.filter (fun r => truthyId r.assigned_captain_id) = []) :
    planParticipantAssignments rand restaurants participants true = ([], participants) := by
  simp only [planParticipantAssignments, if_true]
  rw [h]
  rfl

theorem planParticipant_eq_loop (rand : (n : Nat) → Fin (n + 1))
    (restaurants : List Restaurant) (participants : List Participant)
    (h : restaurants.filter (fun r => truthyId r.assigned_captain_id) ≠ []) :
    planParticipantAssignments rand restaurants participants true
      = assignLoop
          ((restaurants.filter (fun r => truthyId r.assigned_captain_id)).map
            (fun restaurant =>
              { id := restaurant.id, capacity := (restaurant.max_seats - 1).toNat,
                assigned := 0 }))
          (randomShuffle rand
            (participants.filter (fun participant => participant.status != "cancelled"))) := by
  simp only [planParticipantAssignments, if_true]
  rw [if_neg]
  intro h0
  rw [List.length_map] at h0
  exact h (List.length_eq_zero.mp h0)

theorem natSum_zero {l : List Nat} (h : l.sum = 0) : ∀ x ∈ l, x = 0 := by
  induction l with
  | nil => intro x hx; cases hx
  | cons a t ih =>
    rw [List.sum_cons] at h
    intro x hx
    rcases List.mem_cons.mp hx with rfl | hx
    · omega
    · exact ih (by omega) x hx

/-! ### Claim theorems: participant allocator (C1, C5) -/

/-- C1 fails as stated: here the qualifying venue `r1` has effective
capacity `2 > 0`, yet one eligible non-captain participant is left
unassigned, because once every venue is full the overbooking fallback
only inspects the sort's head, which is the zero-capacity venue `r0`
(fewest assigned), and a zero-capacity head aborts the placement. -/
theorem every_participant_placed_cex :
    (([sampleRestaurant "r0" 1 (some "c0"),
          sampleRestaurant "r1" 3 (some "c1")].filter
        (fun r => truthyId r.assigned_captain_id)).map
          (fun r => (r.max_seats - 1).toNat)).contains 2 = true
    ∧ (planParticipantAssignments randZero
          [sampleRestaurant "r0" 1 (some "c0"), sampleRestaurant "r1" 3 (some "c1")]
          [sampleParticipant "p1" "Ann" false "registered",
            sampleParticipant "p2" "Ben" false "registered",
            sampleParticipant "p3" "Cid" false "registered"] true).2
        = [sampleParticipant "p1" "Ann" false "registered"] := by
  constructor
  · decide
  · decide

/-- C1 (amended): when at least one venue qualifies and every qualifying
venue has positive effective capacity, every eligible non-captain
participant is placed (unassigned is empty); and, unconditionally — for
every call, with no capacity hypothesis at all — every assignment
targets a qualifying venue of positive effective capacity, so a
zero-capacity venue never receives a participant. -/
theorem every_participant_placed (rand : (n : Nat) → Fin (n + 1))
    (restaurants : List Restaurant) (participants : List Participant) :
    (restaurants.filter (fun r => truthyId r.assigned_captain_id) ≠ [] →
      (∀ r ∈ restaurants.filter (fun r => truthyId r.assigned_captain_id),
          0 < (r.max_seats - 1).toNat) →
        (planParticipantAssignments rand restaurants participants true).2 = []
        ∧ ∀ p ∈ participants, p.status ≠ "cancelled" → p.is_table_captain = false →
            p.id ∈ (planParticipantAssignments rand restaurants participants true).1.map
              (fun a => a.participantId))
    ∧ (∀ a ∈ (planParticipantAssignments rand restaurants participants true).1,
        ∃ r ∈ restaurants.filter (fun r => truthyId r.assigned_captain_id),
          r.id = a.restaurantId ∧ 0 < (r.max_seats - 1).toNat) := by
  constructor
  · intro hne hpos
    rw [planParticipant_eq_loop rand restaurants participants hne]
    have hpoolsne : (restaurants.filter (fun r => truthyId r.assigned_captain_id)).map
        (fun restaurant =>
          ({ id := restaurant.id, capacity := (restaurant.max_seats - 1).toNat,
             assigned := 0 } : Pool)) ≠ [] := by
      intro h0
      exact hne (List.map_eq_nil_iff.mp h0)
    have hpoolscap : ∀ q ∈ (restaurants.filter (fun r => truthyId r.assigned_captain_id)).map
        (fun restaurant =>
          ({ id := restaurant.id, capacity := (restaurant.max_seats - 1).toNat,
             assigned := 0 } : Pool)), 0 < q.capacity := by
      intro q hq
      rw [List.mem_map] at hq
      obtain ⟨r, hr, rfl⟩ := hq
      exact hpos r hr
    obtain ⟨h1, h2⟩ := assignLoop_all_placed _ hpoolsne hpoolscap
    refine ⟨h1, ?_⟩
    intro p hp hst hc
    rw [h2]
    have hm1 : p ∈ participants.filter (fun q => q.status != "cancelled") :=
      List.mem_filter.mpr ⟨hp, by simpa using hst⟩
    have hm2 : p ∈ randomShuffle rand
        (participants.filter (fun q => q.status != "cancelled")) :=
      ((randomShuffle_perm rand _).mem_iff).mpr hm1
    have hm3 : p ∈ (randomShuffle rand
        (participants.filter (fun q => q.status != "cancelled"))).filter
          (fun x => !x.is_table_captain) :=
      List.mem_filter.mpr ⟨hm2, by simp [hc]⟩
    exact List.mem_map.mpr ⟨p, hm3, rfl⟩
  · by_cases hq : restaurants.filter (fun r => truthyId r.assigned_captain_id) = []
    · rw [planParticipant_eq_empty rand restaurants participants hq]
      intro a ha
      cases ha
    · rw [planParticipant_eq_loop rand restaurants participants hq]
      intro a ha
      obtain ⟨q, hq', hqid, hqcap⟩ := assignLoop_target_from_pool a ha
      rw [List.mem_map] at hq'
      obtain ⟨r, hr, rfl⟩ := hq'
      exact ⟨r, hr, hqid, hqcap⟩

/-- Witness for the amended C1: one qualifying venue of capacity 2,
two eligible participants, both placed. -/
theorem every_participant_placed_witness :
    (planParticipantAssignments randZero [sampleRestaurant "r1" 3 (some "c1")]
        [sampleParticipant "p1" "Ann" false "registered",
          sampleParticipant "p2" "Ben" false "registered"] true).2 = []
    ∧ "p1" ∈ (planParticipantAssignments randZero [sampleRestaurant "r1" 3 (some "c1")]
        [sampleParticipant "p1" "Ann" false "registered",
          sampleParticipant "p2" "Ben" false "registered"] true).1.map
          (fun a => a.participantId) := by
  obtain ⟨h1, h2⟩ := (every_participant_placed randZero
    [sampleRestaurant "r1" 3 (some "c1")]
    [sampleParticipant "p1" "Ann" false "registered",
      sampleParticipant "p2" "Ben" false "registered"]).1
    (by decide) (by decide)
  exact ⟨h1, h2 (sampleParticipant "p1" "Ann" false "registered")
    (by decide) (by decide) (by decide)⟩

/-- C5 fails as stated: one venue with `max_seats = 1` and a captain has
zero total free capacity but positive raw capacity, and the eligible
participant is NOT placed via overbooking — it lands in `unassigned`
(zero-capacity venues never receive overbooked participants). -/
theorem participant_fallback_ordering_cex :
    (([sampleRestaurant "r1" 1 (some "c1")].filter
        (fun r => truthyId r.assigned_captain_id)).map
          (fun r => (r.max_seats - 1).toNat)).sum = 0
    ∧ 0 < (([sampleRestaurant "r1" 1 (some "c1")].filter
        (fun r => truthyId r.assigned_captain_id)).map (fun r => r.max_seats)).sum
    ∧ (planParticipantAssignments randZero [sampleRestaurant "r1" 1 (some "c1")]
          [sampleParticipant "p1" "Ann" false "registered"] true)
        = ([], [sampleParticipant "p1" "Ann" false "registered"]) := by
  refine ⟨by decide, by decide, by decide⟩

/-- C5 (amended): with zero total free capacity over the qualifying
venues, nobody is placed at all: the assignment list is empty and every
eligible non-captain participant lands in `unassigned` (the fairness
bound is vacuous, as no venue with positive capacity exists). -/
theorem participant_fallback_ordering (rand : (n : Nat) → Fin (n + 1))
    (restaurants : List Restaurant) (participants : List Participant)
    (hzero : ((restaurants.filter (fun r => truthyId r.assigned_captain_id)).map
        (fun r => (r.max_seats - 1).toNat)).sum = 0) :
    (planParticipantAssignments rand restaurants participants true).1 = []
    ∧ ∀ p ∈ participants, p.status ≠ "cancelled" → p.is_table_captain = false →
        p ∈ (planParticipantAssignments rand restaurants participants true).2 := by
  by_cases hq : restaurants.filter (fun r => truthyId r.assigned_captain_id) = []
  · rw [planParticipant_eq_empty rand restaurants participants hq]
    exact ⟨rfl, fun p hp _ _ => hp⟩
  · rw [planParticipant_eq_loop rand restaurants participants hq]
    have hcap0 : ∀ q ∈ (restaurants.filter (fun r => truthyId r.assigned_captain_id)).map
        (fun restaurant =>
          ({ id := restaurant.id, capacity := (restaurant.max_seats - 1).toNat,
             assigned := 0 } : Pool)), q.capacity = 0 := by
      intro q hq'
      rw [List.mem_map] at hq'
      obtain ⟨r, hr, rfl⟩ := hq'
      exact natSum_zero hzero _ (List.mem_map.mpr ⟨r, hr, rfl⟩)
    rw [assignLoop_zero_cap hcap0]
    refine ⟨rfl, ?_⟩
    intro p hp hst hc
    have hm1 : p ∈ participants.filter (fun q => q.status != "cancelled") :=
      List.mem_filter.mpr ⟨hp, by simpa using hst⟩
    have hm2 : p ∈ randomShuffle rand
        (participants.filter (fun q => q.status != "cancelled")) :=
      ((randomShuffle_perm rand _).mem_iff).mpr hm1
    exact List.mem_filter.mpr ⟨hm2, by simp [hc]⟩

/-- Witness for the amended C5 at the spec's own zero-capacity scenario. -/
theorem participant_fallback_ordering_witness :
    (planParticipantAssignments randZero [sampleRestaurant "r1" 1 (some "c1")]
        [sampleParticipant "p1" "Ann" false "registered",
          sampleParticipant "p2" "Ben" false "registered"] true).1 = []
    ∧ sampleParticipant "p1" "Ann" false "registered"
        ∈ (planParticipantAssignments randZero [sampleRestaurant "r1" 1 (some "c1")]
            [sampleParticipant "p1" "Ann" false "registered",
              sampleParticipant "p2" "Ben" false "registered"] true).2 := by
  obtain ⟨h1, h2⟩ := participant_fallback_ordering randZero
    [sampleRestaurant "r1" 1 (some "c1")]
    [sampleParticipant "p1" "Ann" false "registered",
      sampleParticipant "p2" "Ben" false "registered"]
    (by decide)
  exact ⟨h1, h2 (sampleParticipant "p1" "Ann" false "registered")
    (by decide) (by decide) (by decide)⟩

/-! ### Claim theorems: participant allocator (C2, C6, C10) -/

theorem length_filter_beq_eq_one {l : List String} (h : l.Nodup) {x : String} (hx : x ∈ l) :
    (l.filter (fun s => s == x)).length = 1 := by
  induction l with
  | nil => cases hx
  | cons a t ih =>
    obtain ⟨hnotin, hnd⟩ := List.nodup_cons.mp h
    rcases List.mem_cons.mp hx with hax | hx
    · subst hax
      rw [List.filter_cons, if_pos (by simp)]
      have ht : t.filter (fun s => s == x) = [] := by
        rw [List.filter_eq_nil_iff]
        intro s hs hbeq
        exact hnotin (eq_of_beq hbeq ▸ hs)
      rw [ht]
      rfl
    · have hne : ¬(a == x) = true := by
        intro hbeq
        exact hnotin (eq_of_beq hbeq ▸ hx)
      rw [List.filter_cons, if_neg hne]
      exact ih hnd hx

/-- C2 fails as stated: with two venues sharing the id "a"
(`max_seats` 2 and 3, both captained) and two participants sharing the
id "p", total free capacity is `1 + 2 = 3 ≥ 2` eligible participants,
yet the participant id "p" appears twice in the plan and the first
venue's assigned count `2` exceeds its `max_seats - 1 = 1` (the
increment always hits the first pool carrying the target's id). -/
theorem participant_capacity_respect_cex :
    (([sampleRestaurant "a" 2 (some "c0"), sampleRestaurant "a" 3 (some "c1")].filter
        (fun r => truthyId r.assigned_captain_id)).map
          (fun r => (r.max_seats - 1).toNat)).sum = 3
    ∧ ([sampleParticipant "p" "Ann" false "registered",
          sampleParticipant "p" "Ben" false "registered"].filter
        (fun p => p.status != "cancelled" && !p.is_table_captain)).length = 2
    ∧ (((planParticipantAssignments randZero
          [sampleRestaurant "a" 2 (some "c0"), sampleRestaurant "a" 3 (some "c1")]
          [sampleParticipant "p" "Ann" false "registered",
            sampleParticipant "p" "Ben" false "registered"] true).1.map
        (fun a => a.participantId)).filter (fun s => s == "p")).length = 2
    ∧ ((planParticipantAssignments randZero
          [sampleRestaurant "a" 2 (some "c0"), sampleRestaurant "a" 3 (some "c1")]
          [sampleParticipant "p" "Ann" false "registered",
            sampleParticipant "p" "Ben" false "registered"] true).1.filter
        (fun a => a.restaurantId == "a")).length = 2 := by
  refine ⟨by decide, by decide, by decide, by decide⟩

/-- C2 (amended): additionally assuming pairwise-distinct venue ids and
participant ids, when total free capacity covers the eligible
non-captain participants, each such participant appears exactly once in
the plan, the unassigned list holds no eligible non-captain, and no
venue receives more than `max(max_seats - 1, 0)` participants. -/
theorem participant_capacity_respect (rand : (n : Nat) → Fin (n + 1))
    (restaurants : List Restaurant) (participants : List Participant)
    (hrids : (restaurants.map (fun r => r.id)).Nodup)
    (hpids : (participants.map (fun p => p.id)).Nodup)
    (hfree : (participants.filter
        (fun p => p.status != "cancelled" && !p.is_table_captain)).length
      ≤ ((restaurants.filter (fun r => truthyId r.assigned_captain_id)).map
          (fun r => (r.max_seats - 1).toNat)).sum) :
    (∀ p ∈ participants, p.status ≠ "cancelled" → p.is_table_captain = false →
        (((planParticipantAssignments rand restaurants participants true).1.map
          (fun a => a.participantId)).filter (fun s => s == p.id)).length = 1)
    ∧ (∀ p ∈ (planParticipantAssignments rand restaurants participants true).2,
        p.status = "cancelled" ∨ p.is_table_captain = true)
    ∧ (∀ r ∈ restaurants,
        ((planParticipantAssignments rand restaurants participants true).1.filter
          (fun a => a.restaurantId == r.id)).length ≤ (r.max_seats - 1).toNat) := by
  have hfilter : (participants.filter (fun q => q.status != "cancelled")).filter
      (fun x => !x.is_table_captain)
      = participants.filter (fun p => p.status != "cancelled" && !p.is_table_captain) := by
    rw [List.filter_filter]
    apply List.filter_congr
    intro a _
    rw [Bool.and_comm]
  by_cases hq : restaurants.filter (fun r => truthyId r.assigned_captain_id) = []
  · rw [planParticipant_eq_empty rand restaurants participants hq]
    rw [hq] at hfree
    simp only [List.map_nil, List.sum_nil, Nat.le_zero] at hfree
    have h0 : participants.filter
        (fun p => p.status != "cancelled" && !p.is_table_captain) = [] :=
      List.length_eq_zero.mp hfree
    refine ⟨?_, ?_, ?_⟩
    · intro p hp hst hc
      exfalso
      have hmem : p ∈ participants.filter
          (fun p => p.status != "cancelled" && !p.is_table_captain) :=
        List.mem_filter.mpr ⟨hp, by simp [hst, hc]⟩
      rw [h0] at hmem
      cases hmem
    · intro p hp
      by_contra hcon
      push_neg at hcon
      obtain ⟨hst, hcap⟩ := hcon
      have hmem : p ∈ participants.filter
          (fun p => p.status != "cancelled" && !p.is_table_captain) :=
        List.mem_filter.mpr ⟨hp, by simp [hst, hcap]⟩
      rw [h0] at hmem
      cases hmem
    · intro r _
      simp
  · rw [planParticipant_eq_loop rand restaurants participants hq]
    have hndpools : (((restaurants.filter (fun r => truthyId r.assigned_captain_id)).map
        (fun restaurant =>
          ({ id := restaurant.id, capacity := (restaurant.max_seats - 1).toNat,
             assigned := 0 } : Pool))).map (fun p => p.id)).Nodup := by
      rw [List.map_map]
      exact ((List.filter_sublist restaurants).map (fun r => r.id)).nodup hrids
    have hbound : ∀ q ∈ (restaurants.filter (fun r => truthyId r.assigned_captain_id)).map
        (fun restaurant =>
          ({ id := restaurant.id, capacity := (restaurant.max_seats - 1).toNat,
             assigned := 0 } : Pool)), q.assigned ≤ q.capacity := by
      intro q hq'
      rw [List.mem_map] at hq'
      obtain ⟨r, _, rfl⟩ := hq'
      exact Nat.zero_le _
    have hcount : (randomShuffle rand
        (participants.filter (fun q => q.status != "cancelled"))).countP
          (fun x => !x.is_table_captain)
        ≤ freeTotal ((restaurants.filter (fun r => truthyId r.assigned_captain_id)).map
            (fun restaurant =>
              ({ id := restaurant.id, capacity := (restaurant.max_seats - 1).toNat,
                 assigned := 0 } : Pool))) := by
      rw [(randomShuffle_perm rand _).countP_eq]
      rw [List.countP_eq_length_filter, hfilter]
      unfold freeTotal
      rw [List.map_map]
      simpa using hfree
    obtain ⟨h1, h2, h3⟩ := assignLoop_no_overbook _ hndpools hbound hcount
    refine ⟨?_, ?_, ?_⟩
    · intro p hp hst hc
      rw [h2]
      rw [← List.countP_eq_length_filter, List.countP_map, List.countP_eq_length_filter]
      have hperm : ((randomShuffle rand
          (participants.filter (fun q => q.status != "cancelled"))).filter
            (fun x => !x.is_table_captain))
          ~ participants.filter (fun p => p.status != "cancelled" && !p.is_table_captain) :=
        (((randomShuffle_perm rand _).filter _).trans (List.Perm.of_eq hfilter))
      rw [((hperm.filter _).length_eq)]
      rw [← List.countP_eq_length_filter, ← List.countP_map, List.countP_eq_length_filter]
      apply length_filter_beq_eq_one
      · exact ((List.filter_sublist participants).map (fun p => p.id)).nodup hpids
      · exact List.mem_map.mpr
          ⟨p, List.mem_filter.mpr ⟨hp, by simp [hst, hc]⟩, rfl⟩
    · intro p hp
      rw [h1] at hp
      cases hp
    · intro r hr
      by_cases hcase : truthyId r.assigned_captain_id = true
      · have hpool : ({ id := r.id, capacity := (r.max_seats - 1).toNat,
                        assigned := 0 } : Pool)
            ∈ (restaurants.filter (fun r => truthyId r.assigned_captain_id)).map
              (fun restaurant =>
                ({ id := restaurant.id, capacity := (restaurant.max_seats - 1).toNat,
                   assigned := 0 } : Pool)) :=
          List.mem_map.mpr ⟨r, List.mem_filter.mpr ⟨hr, hcase⟩, rfl⟩
        have hb := h3 _ hpool
        simpa using hb
      · have hempty : (assignLoop
            ((restaurants.filter (fun r => truthyId r.assigned_captain_id)).map
              (fun restaurant =>
                ({ id := restaurant.id, capacity := (restaurant.max_seats - 1).toNat,
                   assigned := 0 } : Pool)))
            (randomShuffle rand
              (participants.filter (fun q => q.status != "cancelled")))).1.filter
              (fun a => a.restaurantId == r.id) = [] := by
          rw [List.filter_eq_nil_iff]
          intro a ha hbeq
          obtain ⟨q, hq', hqid, _⟩ := assignLoop_target_from_pool a ha
          rw [List.mem_map] at hq'
          obtain ⟨r', hr', rfl⟩ := hq'
          have hrid : r'.id = r.id := by
            simpa using hqid.trans (eq_of_beq hbeq)
          obtain ⟨hr'mem, hr'truthy⟩ := List.mem_filter.mp hr'
          have hrr : r' = r := List.inj_on_of_nodup_map hrids hr'mem hr hrid
          rw [hrr] at hr'truthy
          exact hcase hr'truthy
        rw [hempty]
        exact Nat.zero_le _

/-- Witness for the amended C2 at the spec's own scenario: two venues of
three seats each (effective capacity 2 + 2), four eligible participants,
all placed, none unassigned, capacity respected. -/
theorem participant_capacity_respect_witness :
    (((planParticipantAssignments randZero
          [sampleRestaurant "r1" 3 (some "c1"), sampleRestaurant "r2" 3 (some "c2")]
          [sampleParticipant "p1" "Ann" false "registered",
            sampleParticipant "p2" "Ben" false "registered",
            sampleParticipant "p3" "Cid" false "registered",
            sampleParticipant "p4" "Dee" false "registered"] true).1.map
        (fun a => a.participantId)).filter (fun s => s == "p1")).length = 1
    ∧ ((planParticipantAssignments randZero
          [sampleRestaurant "r1" 3 (some "c1"), sampleRestaurant "r2" 3 (some "c2")]
          [sampleParticipant "p1" "Ann" false "registered",
            sampleParticipant "p2" "Ben" false "registered",
            sampleParticipant "p3" "Cid" false "registered",
            sampleParticipant "p4" "Dee" false "registered"] true).1.filter
        (fun a => a.restaurantId == "r1")).length ≤ 2 := by
  obtain ⟨h1, _, h3⟩ := participant_capacity_respect randZero
    [sampleRestaurant "r1" 3 (some "c1"), sampleRestaurant "r2" 3 (some "c2")]
    [sampleParticipant "p1" "Ann" false "registered",
      sampleParticipant "p2" "Ben" false "registered",
      sampleParticipant "p3" "Cid" false "registered",
      sampleParticipant "p4" "Dee" false "registered"]
    (by decide) (by decide) (by decide)
  exact ⟨h1 (sampleParticipant "p1" "Ann" false "registered")
      (by decide) (by decide) (by decide),
    h3 (sampleRestaurant "r1" 3 (some "c1")) (by decide)⟩

/-- C6: with pairwise-distinct participant ids, no `participantId` is
ever repeated in the returned plan, and every entry pairs the id of an
input participant with the id of an input venue. -/
theorem assignments_unique (rand : (n : Nat) → Fin (n + 1))
    (restaurants : List Restaurant) (participants : List Participant)
    (requireCaptain : Bool)
    (hpids : (participants.map (fun p => p.id)).Nodup) :
    ((planParticipantAssignments rand restaurants participants requireCaptain).1.map
        (fun a => a.participantId)).Nodup
    ∧ ∀ a ∈ (planParticipantAssignments rand restaurants participants requireCaptain).1,
        (∃ p ∈ participants, p.id = a.participantId)
        ∧ ∃ r ∈ restaurants, r.id = a.restaurantId := by
  simp only [planParticipantAssignments]
  by_cases h0 : ((restaurants.filter (fun restaurant =>
      if requireCaptain then truthyId restaurant.assigned_captain_id else true)).map
      (fun restaurant =>
        ({ id := restaurant.id, capacity := (restaurant.max_seats - 1).toNat,
           assigned := 0 } : Pool))).length = 0
  · rw [if_pos h0]
    exact ⟨by simp, fun a ha => by simp at ha⟩
  · rw [if_neg h0]
    constructor
    · have hsub := assignLoop_ids_sublist
        ((restaurants.filter (fun restaurant =>
          if requireCaptain then truthyId restaurant.assigned_captain_id else true)).map
          (fun restaurant =>
            ({ id := restaurant.id, capacity := (restaurant.max_seats - 1).toNat,
               assigned := 0 } : Pool)))
        (randomShuffle rand
          (participants.filter (fun participant => participant.status != "cancelled")))
      apply hsub.nodup
      have hperm := (randomShuffle_perm rand
        (participants.filter (fun participant =>
          participant.status != "cancelled"))).map (fun p => p.id)
      apply hperm.symm.nodup
      exact ((List.filter_sublist participants).map (fun p => p.id)).nodup hpids
    · intro a ha
      constructor
      · obtain ⟨p, hp, hpid, _⟩ := assignLoop_assigned_from a ha
        have hpf : p ∈ participants.filter
            (fun participant => participant.status != "cancelled") :=
          (randomShuffle_perm rand _).mem_iff.mp hp
        exact ⟨p, (List.mem_filter.mp hpf).1, hpid⟩
      · obtain ⟨q, hq', hqid, _⟩ := assignLoop_target_from_pool a ha
        rw [List.mem_map] at hq'
        obtain ⟨r, hr, rfl⟩ := hq'
        exact ⟨r, (List.mem_filter.mp hr).1, hqid⟩

/-- Witness for C6 on concrete data. -/
theorem assignments_unique_witness :
    ((planParticipantAssignments randZero [sampleRestaurant "r1" 3 (some "c1")]
        [sampleParticipant "p1" "Ann" false "registered",
          sampleParticipant "p2" "Ben" false "registered"] true).1.map
      (fun a => a.participantId)).Nodup :=
  (assignments_unique randZero [sampleRestaurant "r1" 3 (some "c1")]
    [sampleParticipant "p1" "Ann" false "registered",
      sampleParticipant "p2" "Ben" false "registered"] true (by decide)).1

/-- C10: when at least one venue qualifies, captains and cancelled
participants are silently absent from both outputs: captains and
cancelled records never land in `unassigned`, and every plan entry stems
from an eligible non-captain; when no venue qualifies, the whole input
participant list (captains and cancelled included) is returned
verbatim as `unassigned`. -/
theorem skipped_participants_absent (rand : (n : Nat) → Fin (n + 1))
    (restaurants : List Restaurant) (participants : List Participant) :
    (restaurants.filter (fun r => truthyId r.assigned_captain_id) ≠ [] →
      (∀ p ∈ participants, p.is_table_captain = true ∨ p.status = "cancelled" →
        p ∉ (planParticipantAssignments rand restaurants participants true).2)
      ∧ ∀ a ∈ (planParticipantAssignments rand restaurants participants true).1,
          ∃ p ∈ participants, p.id = a.participantId
            ∧ p.is_table_captain = false ∧ p.status ≠ "cancelled")
    ∧ (restaurants.filter (fun r => truthyId r.assigned_captain_id) = [] →
        planParticipantAssignments rand restaurants participants true
          = ([], participants)) := by
  constructor
  · intro hne
    rw [planParticipant_eq_loop rand restaurants participants hne]
    constructor
    · intro p _ hflag hmem
      obtain ⟨hps, hcap⟩ := assignLoop_unassigned_from p hmem
      have hf : p ∈ participants.filter (fun q => q.status != "cancelled") :=
        (randomShuffle_perm rand _).mem_iff.mp hps
      have hst := (List.mem_filter.mp hf).2
      rcases hflag with hflag | hflag
      · rw [hflag] at hcap
        cases hcap
      · rw [hflag] at hst
        simp at hst
    · intro a ha
      obtain ⟨p, hps, hpid, hcap⟩ := assignLoop_assigned_from a ha
      have hf : p ∈ participants.filter (fun q => q.status != "cancelled") :=
        (randomShuffle_perm rand _).mem_iff.mp hps
      obtain ⟨hmem, hst⟩ := List.mem_filter.mp hf
      exact ⟨p, hmem, hpid, hcap, by simpa using hst⟩
  · intro hq
    exact planParticipant_eq_empty rand restaurants participants hq

/-- Witness for C10: concretely, neither the captain record nor the
cancelled record shows up in `unassigned`. -/
theorem skipped_participants_absent_witness :
    sampleParticipant "c1" "Cap" true "registered"
        ∉ (planParticipantAssignments randZero [sampleRestaurant "r1" 3 (some "c1")]
            [sampleParticipant "c1" "Cap" true "registered",
              sampleParticipant "p2" "Ben" false "cancelled",
              sampleParticipant "p3" "Cid" false "registered"] true).2
    ∧ sampleParticipant "p2" "Ben" false "cancelled"
        ∉ (planParticipantAssignments randZero [sampleRestaurant "r1" 3 (some "c1")]
            [sampleParticipant "c1" "Cap" true "registered",
              sampleParticipant "p2" "Ben" false "cancelled",
              sampleParticipant "p3" "Cid" false "registered"] true).2 := by
  obtain ⟨h1, _⟩ := (skipped_participants_absent randZero
    [sampleRestaurant "r1" 3 (some "c1")]
    [sampleParticipant "c1" "Cap" true "registered",
      sampleParticipant "p2" "Ben" false "cancelled",
      sampleParticipant "p3" "Cid" false "registered"]).1 (by decide)
  exact ⟨h1 _ (by decide) (Or.inl rfl), h1 _ (by decide) (Or.inr rfl)⟩

end BPM
